import Mathlib

/-!
Verification development for the BackupLens scanning pipeline.

Shallow embedding of the pipeline orchestrator (the Go file holding
`entropy`, `scanClamAV`, `processFile`, `worker` and `main`).  Pure
computations (entropy, the INSTREAM wire encoding, the clamd response
parser, the scoring and decision policy, the watcher dedup loop) are
translated into Lean functions; the effectful stages of `processFile`
(MIME sniffing, the two network scanners, the file read for entropy and
the quarantine rename) are modelled by an environment record carrying
the outcome each external call produced for the file at hand.
-/

namespace BackupLens

/-- ScoringConfig weights, mirroring the yaml keys of the Go struct. -/
structure Weights where
  mime_mismatch : Int
  clamav_infected : Int
  yara_match : Int
  high_entropy : Int

/-- ScoringConfig thresholds, mirroring the yaml keys of the Go struct. -/
structure Thresholds where
  auto_approve : Int
  manual_review : Int
  quarantine : Int

/-- The scoring configuration loaded at startup. -/
structure ScoringConfig where
  weights : Weights
  thresholds : Thresholds

/-- Per-file scan result, mirroring the Go `ScanResult` struct.  The Go
zero values of the fields are the Lean defaults. -/
structure ScanResult where
  path : String := ""
  mimeType : String := ""
  clamAVResult : String := ""
  yaraMatches : List String := []
  entropyVal : ℝ := 0
  score : Int := 0
  decision : String := ""
  error : Option String := none

/-! ### Shannon entropy (Go function `entropy`)

The Go code builds a 256-bucket frequency table over the byte sample,
skips empty buckets and accumulates `-p * log2 p` in float64; we embed
bytes as `Fin 256` and the arithmetic over `ℝ`. -/

/-- Shannon entropy of a byte sample: `0` for the empty sample, else
`-Σ p_i * logb 2 p_i` over the non-empty frequency buckets, with
`p_i = count_i / length`. -/
noncomputable def entropy (b : List (Fin 256)) : ℝ :=
  if b.length = 0 then 0
  else - ∑ i ∈ Finset.univ.filter (fun i : Fin 256 => b.count i ≠ 0),
        ((b.count i : ℝ) / (b.length : ℝ)) * Real.logb 2 ((b.count i : ℝ) / (b.length : ℝ))

/-! ### INSTREAM wire encoding (Go function `scanClamAV`, upload half)

The Go client writes the literal command `zINSTREAM\n`, then loops
reading the file 4096 bytes at a time, writing each chunk as a 4-byte
big-endian length followed by the raw bytes, and finally writes a
zero-length chunk.  Bytes on the wire are embedded as `Nat` values. -/

/-- Big-endian 4-byte encoding of a 32-bit length, as the Go client
builds it from the shifts `>> 24`, `>> 16`, `>> 8` and the low byte. -/
def be32 (n : Nat) : List Nat :=
  [n / 16777216 % 256, n / 65536 % 256, n / 256 % 256, n % 256]

/-- The ASCII bytes of the literal command string sent first. -/
def instreamCmd : List Nat := [122, 73, 78, 83, 84, 82, 69, 65, 77, 10]

/-- The chunking performed by the Go read loop: successive 4096-byte
reads from the start of the file until it is exhausted. -/
def toChunks (bs : List Nat) : List (List Nat) :=
  if h : bs = [] then []
  else bs.take 4096 :: toChunks (bs.drop 4096)
termination_by bs.length
decreasing_by
  simp only [List.length_drop]
  have hpos : 0 < bs.length := List.length_pos.mpr h
  omega

/-- Everything the client writes on the connection for one file:
command, length-prefixed chunks, zero-length terminator. -/
def instreamPayload (bs : List Nat) : List Nat :=
  instreamCmd ++ (List.map (fun c => be32 c.length ++ c) (toChunks bs)).flatten ++ be32 0

/-! ### clamd response parsing (Go function `scanClamAV`, verdict half)

The Go code trims the response, then checks `UNKNOWN COMMAND` (substring),
then suffix `FOUND` (joining the fields strictly between the first and the
last as the verdict, or `"Unknown threat"` when there are fewer than two
fields), then suffix `OK`, and otherwise errors.  Strings are handled as
char lists; `trimChars`, `containsSub`, `endsWithChars` and `words` embed
`strings.TrimSpace`, `strings.Contains`, `strings.HasSuffix` and
`strings.Fields`. -/

/-- Drop leading and trailing whitespace (Go `strings.TrimSpace`). -/
def trimChars (l : List Char) : List Char :=
  ((l.dropWhile Char.isWhitespace).reverse.dropWhile Char.isWhitespace).reverse

/-- Whether the first list starts with the second list. -/
def isPre : List Char → List Char → Bool
  | [], _ => true
  | _ :: _, [] => false
  | p :: ps, c :: cs => p == c && isPre ps cs

/-- Whether `l` contains `pat` as a contiguous substring
(Go `strings.Contains`). -/
def containsSub (pat : List Char) : List Char → Bool
  | [] => isPre pat []
  | c :: cs => isPre pat (c :: cs) || containsSub pat cs

/-- Whether `l` ends with `pat` (Go `strings.HasSuffix`). -/
def endsWithChars (l pat : List Char) : Bool :=
  isPre pat.reverse l.reverse

/-- Accumulator version of whitespace-separated word splitting. -/
def wordsAux : List Char → List Char → List (List Char)
  | [], acc => if acc = [] then [] else [acc.reverse]
  | c :: cs, acc =>
    if c.isWhitespace then
      if acc = [] then wordsAux cs [] else acc.reverse :: wordsAux cs []
    else wordsAux cs (c :: acc)

/-- The maximal whitespace-free runs of `l` (Go `strings.Fields`). -/
def words (l : List Char) : List (List Char) := wordsAux l []

/-- `strings.Fields` on a `String`. -/
def fields (s : String) : List String :=
  (words s.data).map (fun w => String.mk w)

/-- The verdict computation of `scanClamAV` on the daemon response line:
`Except.ok verdict` models a `nil` error return, `Except.error` models a
non-nil error return. -/
def parseClamResponse (resp : String) : Except String String :=
  let r := trimChars resp.data
  if containsSub ("UNKNOWN COMMAND".data) r then
    Except.error "INSTREAM not supported and SCAN requires file access from container (mount directories or use local ClamAV)"
  else if endsWithChars r ("FOUND".data) then
    let parts := words r
    if 2 ≤ parts.length then
      Except.ok (String.mk (List.intercalate [' '] ((parts.drop 1).dropLast)))
    else Except.ok "Unknown threat"
  else if endsWithChars r ("OK".data) then
    Except.ok ""
  else
    Except.error ("unexpected response: " ++ String.mk r)

/-! ### The per-file pipeline (Go function `processFile`)

The external calls of `processFile` are modelled by an `Env` record:
the outcome of `mimetype.DetectFile`, of `scanClamAV`, of `scanYARA`,
the bytes obtained by opening and reading the file for the entropy
sample (`none` when the open fails), and the outcome of `os.Rename`
for a quarantine move.  The function returns the `ScanResult` together
with the destination of the rename attempt, when one was made. -/

/-- Outcomes of the external calls made while processing one file. -/
structure Env where
  mimeResult : Except String String
  clamResult : Except String String
  yaraResult : Except String (List String)
  fileBytes : Option (List (Fin 256))
  renameResult : Except String Unit

/-- The verdict recorded on the result: the Go code stores the empty
string when `scanClamAV` returned an error. -/
def clamRecorded : Except String String → String
  | Except.error _ => ""
  | Except.ok v => v

/-- The match list recorded on the result: the Go code leaves the field
nil when `scanYARA` returned an error. -/
def yaraRecorded : Except String (List String) → List String
  | Except.error _ => []
  | Except.ok ms => ms

/-- The entropy recorded on the result: `0` when the file could not be
opened, else the entropy of the first read of up to 65536 bytes. -/
noncomputable def entropyRecorded : Option (List (Fin 256)) → ℝ
  | none => 0
  | some bs => entropy (bs.take 65536)

/-- The scoring pass of `processFile`: start at 0, add the
`clamav_infected` weight when the verdict is non-empty, add the
`yara_match` weight times the match count when there is at least one
match, add the `high_entropy` weight when entropy exceeds 6.5. -/
noncomputable def computeScore (w : Weights) (clamAVResult : String)
    (yaraMatches : List String) (entropyVal : ℝ) : Int :=
  (if clamAVResult ≠ "" then w.clamav_infected else 0)
  + (if 0 < yaraMatches.length then w.yara_match * yaraMatches.length else 0)
  + (if entropyVal > 6.5 then w.high_entropy else 0)

/-- Go `filepath.Base`, simplified to the last non-empty slash-separated
component. -/
def baseName (p : String) : String :=
  match ((p.splitOn "/").filter (fun s => s ≠ "")).getLast? with
  | some s => s
  | none => "."

/-- The stages of `processFile` that run after a successful MIME
detection, through scoring, decision and the quarantine move. -/
noncomputable def scanStages (path : String) (config : ScoringConfig) (env : Env)
    (quarantineDir : String) (mt : String) : ScanResult × Option String :=
  let clamAVResult := clamRecorded env.clamResult
  let yaraMatches := yaraRecorded env.yaraResult
  let entropyVal := entropyRecorded env.fileBytes
  let score := computeScore config.weights clamAVResult yaraMatches entropyVal
  if score ≥ config.thresholds.quarantine then
    let dst := quarantineDir ++ "/" ++ baseName path
    match env.renameResult with
    | Except.ok _ =>
      ({ path := path, mimeType := mt, clamAVResult := clamAVResult,
         yaraMatches := yaraMatches, entropyVal := entropyVal, score := score,
         decision := "quarantine", error := none }, some dst)
    | Except.error e =>
      ({ path := path, mimeType := mt, clamAVResult := clamAVResult,
         yaraMatches := yaraMatches, entropyVal := entropyVal, score := score,
         decision := "quarantine",
         error := some ("failed to quarantine: " ++ e) }, some dst)
  else if score ≥ config.thresholds.manual_review then
    ({ path := path, mimeType := mt, clamAVResult := clamAVResult,
       yaraMatches := yaraMatches, entropyVal := entropyVal, score := score,
       decision := "manual_review", error := none }, none)
  else
    ({ path := path, mimeType := mt, clamAVResult := clamAVResult,
       yaraMatches := yaraMatches, entropyVal := entropyVal, score := score,
       decision := "auto_approve", error := none }, none)

/-- `processFile`: on a MIME detection error the Go code records the
error and returns at once; otherwise the remaining stages run. -/
noncomputable def processFile (path : String) (config : ScoringConfig) (env : Env)
    (quarantineDir : String) : ScanResult × Option String :=
  match env.mimeResult with
  | Except.error e =>
    ({ path := path, error := some ("MIME detection failed: " ++ e) }, none)
  | Except.ok mt => scanStages path config env quarantineDir mt

/-! ### The watcher loop (Go function `main`, discovery half)

Each tick walks the incoming directory; a path absent from the
`processedFiles` set is marked present and a non-blocking send onto the
bounded `jobs` channel is attempted — dropped when the channel is full.
A tick is modelled as the list of discovered paths in walk order, each
paired with whether the channel had room at that moment; the state is
the seen set together with the accumulated list of enqueue events. -/

/-- One watcher tick over the discovered `(path, channel-had-room)`
pairs, threading the seen set and the enqueue-event list. -/
def watcherTick : List String → List String → List (String × Bool) → List String × List String
  | seen, enq, [] => (seen, enq)
  | seen, enq, (f, room) :: rest =>
    if f ∈ seen then watcherTick seen enq rest
    else watcherTick (f :: seen) (if room then enq ++ [f] else enq) rest

/-- The watcher loop over a sequence of ticks. -/
def watcherRun : List String → List String → List (List (String × Bool)) → List String × List String
  | seen, enq, [] => (seen, enq)
  | seen, enq, t :: ts => watcherRun (watcherTick seen enq t).1 (watcherTick seen enq t).2 ts

/-- The score `processFile` computes for a file whose external-call
outcomes are `env`. -/
noncomputable def recordedScore (config : ScoringConfig) (env : Env) : Int :=
  computeScore config.weights (clamRecorded env.clamResult)
    (yaraRecorded env.yaraResult) (entropyRecorded env.fileBytes)

/-! ## Lemmas about the INSTREAM chunking -/

lemma toChunks_nil : toChunks [] = [] := by
  rw [toChunks]
  simp

lemma toChunks_flatten (bs : List Nat) : (toChunks bs).flatten = bs := by
  induction bs using toChunks.induct with
  | case1 => rw [toChunks]; simp
  | case2 bs h ih =>
    rw [toChunks]
    simp only [dif_neg h, List.flatten_cons, ih, List.take_append_drop]

lemma toChunks_length (bs : List Nat) : (toChunks bs).length = (bs.length + 4095) / 4096 := by
  induction bs using toChunks.induct with
  | case1 => rw [toChunks]; simp
  | case2 bs h ih =>
    rw [toChunks]
    simp only [dif_neg h, List.length_cons, ih, List.length_drop]
    have hpos : 0 < bs.length := List.length_pos.mpr h
    omega

lemma toChunks_chunk_le (bs : List Nat) : ∀ c ∈ toChunks bs, c.length ≤ 4096 := by
  induction bs using toChunks.induct with
  | case1 => rw [toChunks]; simp
  | case2 bs h ih =>
    rw [toChunks]
    simp only [dif_neg h, List.mem_cons]
    rintro c (rfl | hc)
    · simp only [List.length_take]
      omega
    · exact ih c hc

/-- C5: the bytes sent for a file of size `S` are exactly the literal
command, then `⌈S/4096⌉` chunks — each a 4-byte big-endian length
followed by that many raw file bytes, each at most 4096 bytes, jointly
the file's bytes in order — then a single zero-length terminator; for
`S = 0` no data chunk precedes the terminator. -/
theorem instream_encoding (bs : List Nat) :
    instreamPayload bs
      = instreamCmd ++ (List.map (fun c => be32 c.length ++ c) (toChunks bs)).flatten ++ be32 0 ∧
    (toChunks bs).length = (bs.length + 4095) / 4096 ∧
    (∀ c ∈ toChunks bs, c.length ≤ 4096) ∧
    (toChunks bs).flatten = bs ∧
    toChunks ([] : List Nat) = [] ∧
    be32 0 = [0, 0, 0, 0] ∧
    instreamCmd = [122, 73, 78, 83, 84, 82, 69, 65, 77, 10] := by
  exact ⟨rfl, toChunks_length bs, toChunks_chunk_le bs, toChunks_flatten bs,
    toChunks_nil, rfl, rfl⟩

/-- Witness for C5 at a concrete input: a three-byte file forms one
chunk, at most 4096 bytes long, holding the file's bytes. -/
theorem instream_encoding_witness :
    (toChunks [1, 2, 3]).flatten = [1, 2, 3] ∧ ([1, 2, 3] : List Nat).length ≤ 4096 := by
  have hch : toChunks [1, 2, 3] = [[1, 2, 3]] := by
    rw [toChunks]
    rw [dif_neg (by simp)]
    rw [List.take_of_length_le (by simp), List.drop_eq_nil_of_le (by simp), toChunks_nil]
  exact ⟨(instream_encoding [1, 2, 3]).2.2.2.1,
    (instream_encoding [1, 2, 3]).2.2.1 [1, 2, 3] (by rw [hch]; exact List.mem_singleton_self _)⟩

/-! ## Lemmas about the watcher loop -/

lemma watcherTick_master (attempts : List (String × Bool)) :
    ∀ (seen enq : List String) (p : String),
    (p ∈ seen → List.count p (watcherTick seen enq attempts).2 = List.count p enq) ∧
    (List.count p (watcherTick seen enq attempts).2 ≤ List.count p enq + (if p ∈ seen then 0 else 1)) ∧
    (p ∉ (watcherTick seen enq attempts).1 → List.count p (watcherTick seen enq attempts).2 = List.count p enq) ∧
    (p ∈ seen → p ∈ (watcherTick seen enq attempts).1) := by
  induction attempts with
  | nil =>
    intro seen enq p
    refine ⟨fun _ => rfl, ?_, fun _ => rfl, fun h => h⟩
    show List.count p enq ≤ List.count p enq + (if p ∈ seen then 0 else 1)
    split <;> omega
  | cons fr rest ih =>
    obtain ⟨f, room⟩ := fr
    intro seen enq p
    by_cases hf : f ∈ seen
    · simp only [watcherTick, if_pos hf]
      exact ih seen enq p
    · simp only [watcherTick, if_neg hf]
      by_cases hfp : f = p
      · subst hfp
        have hmem : f ∈ f :: seen := List.mem_cons_self f seen
        have h1 := (ih (f :: seen) (if room then enq ++ [f] else enq) f).1 hmem
        have h4 := (ih (f :: seen) (if room then enq ++ [f] else enq) f).2.2.2 hmem
        have hcnt : List.count f (if room then enq ++ [f] else enq) ≤ List.count f enq + 1 := by
          split
          · simp [List.count_append]
          · omega
        refine ⟨fun hp => absurd hp hf, ?_, fun hnot => absurd h4 hnot, fun hp => absurd hp hf⟩
        rw [h1]
        simp only [if_neg hf]
        omega
      · have hpmem : (p ∈ f :: seen) ↔ p ∈ seen := by
          simp [List.mem_cons, Ne.symm hfp]
        have hcnt : List.count p (if room then enq ++ [f] else enq) = List.count p enq := by
          split
          · simp [List.count_append, List.count_singleton, hfp]
          · rfl
        have H := ih (f :: seen) (if room then enq ++ [f] else enq) p
        refine ⟨?_, ?_, ?_, ?_⟩
        · intro hp
          rw [H.1 (hpmem.mpr hp), hcnt]
        · calc List.count p (watcherTick (f :: seen) (if room then enq ++ [f] else enq) rest).2
              ≤ List.count p (if room then enq ++ [f] else enq) + (if p ∈ f :: seen then 0 else 1) := H.2.1
            _ = List.count p enq + (if p ∈ seen then 0 else 1) := by
                rw [hcnt]
                congr 1
                simp only [hpmem]
        · intro hnot
          rw [H.2.2.1 hnot, hcnt]
        · intro hp
          exact H.2.2.2 (hpmem.mpr hp)

lemma watcherRun_master (ticks : List (List (String × Bool))) :
    ∀ (seen enq : List String) (p : String),
    (p ∈ seen → List.count p (watcherRun seen enq ticks).2 = List.count p enq) ∧
    (List.count p (watcherRun seen enq ticks).2 ≤ List.count p enq + (if p ∈ seen then 0 else 1)) ∧
    (p ∈ seen → p ∈ (watcherRun seen enq ticks).1) := by
  induction ticks with
  | nil =>
    intro seen enq p
    refine ⟨fun _ => rfl, ?_, fun h => h⟩
    show List.count p enq ≤ List.count p enq + (if p ∈ seen then 0 else 1)
    split <;> omega
  | cons t ts ih =>
    intro seen enq p
    simp only [watcherRun]
    have T := watcherTick_master t seen enq p
    have R := ih (watcherTick seen enq t).1 (watcherTick seen enq t).2 p
    refine ⟨?_, ?_, ?_⟩
    · intro hp
      rw [R.1 (T.2.2.2 hp), T.1 hp]
    · by_cases hps : p ∈ seen
      · rw [R.1 (T.2.2.2 hps), T.1 hps]
        simp [hps]
      · by_cases hps2 : p ∈ (watcherTick seen enq t).1
        · have := R.1 hps2
          rw [this]
          have := T.2.1
          simp only [if_neg hps] at this
          simp only [if_neg hps]
          omega
        · have h2 := T.2.2.1 hps2
          have h3 := R.2.1
          simp only [if_neg hps2] at h3
          simp only [if_neg hps]
          omega
    · intro hp
      exact R.2.2 (T.2.2.2 hp)

lemma watcherTick_cons (seen enq : List String) (f : String) (room : Bool) (rest : List (String × Bool)) :
    watcherTick seen enq ((f, room) :: rest)
      = if f ∈ seen then watcherTick seen enq rest
        else watcherTick (f :: seen) (if room then enq ++ [f] else enq) rest := rfl

/-- C3: starting from the empty seen set, every path is enqueued at most
once over the whole run; a path already marked seen is never enqueued in
any later tick; and when the queue is full at the enqueue attempt (the
first unseen occurrence carries `room = false`), the path is dropped —
no enqueue event is added — yet it ends up marked as seen. -/
theorem watcher_dedup_once :
    (∀ (ticks : List (List (String × Bool))) (p : String),
        List.count p (watcherRun [] [] ticks).2 ≤ 1) ∧
    (∀ (seen enq : List String) (ticks : List (List (String × Bool))) (p : String),
        p ∈ seen → List.count p (watcherRun seen enq ticks).2 = List.count p enq) ∧
    (∀ (seen enq : List String) (pre post : List (String × Bool)) (p : String),
        p ∉ seen → p ∉ pre.map Prod.fst →
        p ∈ (watcherTick seen enq (pre ++ (p, false) :: post)).1 ∧
        List.count p (watcherTick seen enq (pre ++ (p, false) :: post)).2 = List.count p enq) := by
  refine ⟨?_, ?_, ?_⟩
  · intro ticks p
    have h := (watcherRun_master ticks [] [] p).2.1
    simpa using h
  · intro seen enq ticks p hp
    exact (watcherRun_master ticks seen enq p).1 hp
  · intro seen enq pre post p
    induction pre generalizing seen enq with
    | nil =>
      intro hp _
      rw [List.nil_append, watcherTick_cons, if_neg hp]
      have hmem : p ∈ p :: seen := List.mem_cons_self p seen
      refine ⟨(watcherTick_master post (p :: seen) _ p).2.2.2 hmem, ?_⟩
      have h1 := (watcherTick_master post (p :: seen) (if false then enq ++ [p] else enq) p).1 hmem
      simpa using h1
    | cons fr pre2 ih =>
      obtain ⟨f, room⟩ := fr
      intro hp hpre
      have hfp : f ≠ p := fun he => hpre (by simp [he])
      have hpre2 : p ∉ pre2.map Prod.fst := fun hmem => hpre (by simp [hmem])
      rw [List.cons_append, watcherTick_cons]
      by_cases hf : f ∈ seen
      · rw [if_pos hf]
        exact ih seen enq hp hpre2
      · rw [if_neg hf]
        have hp2 : p ∉ f :: seen := by
          intro hc
          rcases List.mem_cons.mp hc with h1 | h1
          · exact hfp h1.symm
          · exact hp h1
        have hcnt : List.count p (if room then enq ++ [f] else enq) = List.count p enq := by
          split
          · simp [List.count_append, List.count_singleton, hfp]
          · rfl
        have H := ih (f :: seen) (if room then enq ++ [f] else enq) hp2 hpre2
        exact ⟨H.1, by rw [H.2, hcnt]⟩

/-! ## Lemmas about the clamd response parser -/

lemma isPre_append (pat l : List Char) (h : isPre pat l = true) :
    ∃ b, l = pat ++ b := by
  induction pat generalizing l with
  | nil => exact ⟨l, rfl⟩
  | cons p ps ih =>
    cases l with
    | nil => simp [isPre] at h
    | cons c cs =>
      simp only [isPre, Bool.and_eq_true, beq_iff_eq] at h
      obtain ⟨rfl, h2⟩ := h
      obtain ⟨b, rfl⟩ := ih cs h2
      exact ⟨b, rfl⟩

lemma containsSub_decomp (pat l : List Char) (h : containsSub pat l = true) :
    ∃ a b, l = a ++ pat ++ b := by
  induction l with
  | nil =>
    simp only [containsSub] at h
    obtain ⟨b, hb⟩ := isPre_append pat [] h
    exact ⟨[], b, hb⟩
  | cons c cs ih =>
    simp only [containsSub, Bool.or_eq_true] at h
    rcases h with h | h
    · obtain ⟨b, hb⟩ := isPre_append pat (c :: cs) h
      exact ⟨[], b, hb⟩
    · obtain ⟨a, b, hb⟩ := ih h
      exact ⟨c :: a, b, by rw [hb]; rfl⟩

lemma wordsAux_ne_nil_of_acc (l : List Char) : ∀ (acc : List Char), acc ≠ [] →
    wordsAux l acc ≠ [] := by
  induction l with
  | nil =>
    intro acc hacc
    simp [wordsAux, hacc]
  | cons c cs ih =>
    intro acc hacc
    simp only [wordsAux]
    by_cases hc : c.isWhitespace
    · rw [if_pos hc, if_neg hacc]
      simp
    · rw [if_neg hc]
      exact ih (c :: acc) (by simp)

lemma wordsAux_ne_nil (l : List Char) (x : Char)
    (hxw : ¬ x.isWhitespace) : ∀ (acc : List Char), x ∈ l → wordsAux l acc ≠ [] := by
  induction l with
  | nil =>
    intro acc hx
    cases hx
  | cons c cs ih =>
    intro acc hx
    simp only [wordsAux]
    by_cases hc : c.isWhitespace
    · rw [if_pos hc]
      have hxcs : x ∈ cs := by
        rcases List.mem_cons.mp hx with rfl | h
        · exact absurd hc hxw
        · exact h
      by_cases hacc : acc = []
      · rw [if_pos hacc]
        exact ih [] hxcs
      · rw [if_neg hacc]
        simp
    · rw [if_neg hc]
      exact wordsAux_ne_nil_of_acc cs (c :: acc) (by simp)

lemma wordsAux_two_le (c : Char) (hc : c.isWhitespace) (v : List Char)
    (y : Char) (hy : y ∈ v) (hyw : ¬ y.isWhitespace) :
    ∀ (u : List Char) (acc : List Char),
      (acc ≠ [] ∨ ∃ x ∈ u, ¬ x.isWhitespace) →
      2 ≤ (wordsAux (u ++ c :: v) acc).length := by
  intro u
  induction u with
  | nil =>
    intro acc hprem
    rcases hprem with hacc | ⟨x, hx, _⟩
    · simp only [List.nil_append, wordsAux, if_pos hc, if_neg hacc]
      have := wordsAux_ne_nil v y hyw [] hy
      have hlen : 0 < (wordsAux v []).length := List.length_pos.mpr this
      simp only [List.length_cons]
      omega
    · cases hx
  | cons a u2 ih =>
    intro acc hprem
    rw [List.cons_append]
    simp only [wordsAux]
    by_cases ha : a.isWhitespace
    · rw [if_pos ha]
      by_cases hacc : acc = []
      · rw [if_pos hacc]
        rcases hprem with h | ⟨x, hx, hxw⟩
        · exact absurd hacc h
        · have hxu2 : x ∈ u2 := by
            rcases List.mem_cons.mp hx with rfl | h2
            · exact absurd ha hxw
            · exact h2
          exact ih [] (Or.inr ⟨x, hxu2, hxw⟩)
      · rw [if_neg hacc]
        have := wordsAux_ne_nil (u2 ++ c :: v) y hyw [] (by simp [hy])
        have hlen : 0 < (wordsAux (u2 ++ c :: v) []).length := List.length_pos.mpr this
        simp only [List.length_cons]
        omega
    · rw [if_neg ha]
      exact ih (a :: acc) (Or.inl (by simp))

lemma words_two_le (u : List Char) (c : Char) (v : List Char)
    (x : Char) (hx : x ∈ u) (hxw : ¬ x.isWhitespace)
    (hc : c.isWhitespace)
    (y : Char) (hy : y ∈ v) (hyw : ¬ y.isWhitespace) :
    2 ≤ (words (u ++ c :: v)).length :=
  wordsAux_two_le c hc v y hy hyw u [] (Or.inr ⟨x, hx, hxw⟩)

lemma unknown_cmd_two_words (l : List Char)
    (h : containsSub ("UNKNOWN COMMAND".data) l = true) :
    2 ≤ (words l).length := by
  obtain ⟨a, b, rfl⟩ := containsSub_decomp _ _ h
  have hdec : ("UNKNOWN COMMAND".data : List Char)
      = "UNKNOWN".data ++ ' ' :: "COMMAND".data := by decide
  rw [hdec]
  have : a ++ ("UNKNOWN".data ++ ' ' :: "COMMAND".data) ++ b
      = (a ++ "UNKNOWN".data) ++ ' ' :: ("COMMAND".data ++ b) := by
    simp
  rw [this]
  exact words_two_le (a ++ "UNKNOWN".data) ' ' ("COMMAND".data ++ b)
    'U' (List.mem_append_right a (by decide)) (by decide) (by decide)
    'C' (List.mem_append_left b (by decide)) (by decide)

lemma not_containsSub_of_words_lt (l : List Char)
    (h : (words l).length < 2) :
    containsSub ("UNKNOWN COMMAND".data) l = false := by
  by_contra hc
  have : containsSub ("UNKNOWN COMMAND".data) l = true := by
    revert hc
    cases containsSub ("UNKNOWN COMMAND".data) l <;> simp
  exact absurd (unknown_cmd_two_words l this) (by omega)

/-! ## Lemmas about processFile -/

lemma processFile_err (path : String) (config : ScoringConfig) (env : Env)
    (qdir e : String) (hm : env.mimeResult = Except.error e) :
    processFile path config env qdir
      = ({ path := path, error := some ("MIME detection failed: " ++ e) }, none) := by
  unfold processFile
  rw [hm]

lemma processFile_ok (path : String) (config : ScoringConfig) (env : Env)
    (qdir mt : String) (hm : env.mimeResult = Except.ok mt) :
    processFile path config env qdir = scanStages path config env qdir mt := by
  unfold processFile
  rw [hm]

lemma scanStages_eq (path : String) (config : ScoringConfig) (env : Env)
    (qdir mt : String) :
    scanStages path config env qdir mt =
      if recordedScore config env ≥ config.thresholds.quarantine then
        ({ path := path, mimeType := mt, clamAVResult := clamRecorded env.clamResult,
           yaraMatches := yaraRecorded env.yaraResult,
           entropyVal := entropyRecorded env.fileBytes,
           score := recordedScore config env, decision := "quarantine",
           error := match env.renameResult with
             | Except.ok _ => none
             | Except.error er => some ("failed to quarantine: " ++ er) },
         some (qdir ++ "/" ++ baseName path))
      else if recordedScore config env ≥ config.thresholds.manual_review then
        ({ path := path, mimeType := mt, clamAVResult := clamRecorded env.clamResult,
           yaraMatches := yaraRecorded env.yaraResult,
           entropyVal := entropyRecorded env.fileBytes,
           score := recordedScore config env, decision := "manual_review",
           error := none }, none)
      else
        ({ path := path, mimeType := mt, clamAVResult := clamRecorded env.clamResult,
           yaraMatches := yaraRecorded env.yaraResult,
           entropyVal := entropyRecorded env.fileBytes,
           score := recordedScore config env, decision := "auto_approve",
           error := none }, none) := by
  unfold scanStages recordedScore
  dsimp only
  split_ifs
  · cases env.renameResult <;> rfl
  · rfl
  · rfl

lemma processFile_ok_fields (path : String) (config : ScoringConfig) (env : Env)
    (qdir mt : String) (hm : env.mimeResult = Except.ok mt) :
    (processFile path config env qdir).1.score = recordedScore config env ∧
    (processFile path config env qdir).1.clamAVResult = clamRecorded env.clamResult ∧
    (processFile path config env qdir).1.yaraMatches = yaraRecorded env.yaraResult ∧
    (processFile path config env qdir).1.entropyVal = entropyRecorded env.fileBytes ∧
    (processFile path config env qdir).1.mimeType = mt ∧
    (processFile path config env qdir).1.path = path := by
  rw [processFile_ok path config env qdir mt hm, scanStages_eq]
  split_ifs <;> exact ⟨rfl, rfl, rfl, rfl, rfl, rfl⟩

lemma processFile_ok_decision_cases (path : String) (config : ScoringConfig) (env : Env)
    (qdir mt : String) (hm : env.mimeResult = Except.ok mt) :
    (processFile path config env qdir).1.decision = "quarantine" ∨
    (processFile path config env qdir).1.decision = "manual_review" ∨
    (processFile path config env qdir).1.decision = "auto_approve" := by
  rw [processFile_ok path config env qdir mt hm, scanStages_eq]
  split_ifs
  · exact Or.inl rfl
  · exact Or.inr (Or.inl rfl)
  · exact Or.inr (Or.inr rfl)

lemma processFile_ok_error_none (path : String) (config : ScoringConfig) (env : Env)
    (qdir mt : String) (hm : env.mimeResult = Except.ok mt)
    (hre : env.renameResult = Except.ok ()) :
    (processFile path config env qdir).1.error = none := by
  rw [processFile_ok path config env qdir mt hm, scanStages_eq]
  split_ifs
  · dsimp only
    rw [hre]
  · rfl
  · rfl

lemma processFile_ok_decision_eq (path : String) (config : ScoringConfig) (env : Env)
    (qdir mt : String) (hm : env.mimeResult = Except.ok mt) :
    (processFile path config env qdir).1.decision =
      if recordedScore config env ≥ config.thresholds.quarantine then "quarantine"
      else if recordedScore config env ≥ config.thresholds.manual_review then "manual_review"
      else "auto_approve" := by
  rw [processFile_ok path config env qdir mt hm, scanStages_eq]
  split_ifs <;> rfl

lemma computeScore_yara_merge (w : Weights) (c : String) (y : List String) (e : ℝ) :
    computeScore w c y e
      = (if c ≠ "" then w.clamav_infected else 0)
        + w.yara_match * (y.length : Int)
        + (if e > 6.5 then w.high_entropy else 0) := by
  unfold computeScore
  rcases Nat.eq_zero_or_pos y.length with h | h
  · rw [h]
    simp
  · rw [if_pos h]

/-- The documented default weights and thresholds of the scoring
configuration, used as a concrete fixture. -/
def cfgDefaults : ScoringConfig :=
  { weights := { mime_mismatch := 50, clamav_infected := 200, yara_match := 120, high_entropy := 40 },
    thresholds := { auto_approve := 50, manual_review := 100, quarantine := 101 } }

/-- A file whose MIME sniffing fails while every other signal would have
been available. -/
def envMimeFail : Env :=
  { mimeResult := Except.error "invalid argument",
    clamResult := Except.ok "Eicar-Signature",
    yaraResult := Except.ok ["suspicious_strings"],
    fileBytes := none,
    renameResult := Except.ok () }

/-- A clean file: every stage succeeds and reports no signal. -/
def envClean : Env :=
  { mimeResult := Except.ok "text/plain",
    clamResult := Except.ok "",
    yaraResult := Except.ok [],
    fileBytes := none,
    renameResult := Except.ok () }

/-- A file whose virus scan fails with a connection error. -/
def envClamFail : Env :=
  { mimeResult := Except.ok "application/octet-stream",
    clamResult := Except.error "failed to connect to ClamAV: connection refused",
    yaraResult := Except.ok [],
    fileBytes := none,
    renameResult := Except.ok () }

/-- An infected file whose quarantine move fails. -/
def envRenameFail : Env :=
  { mimeResult := Except.ok "application/octet-stream",
    clamResult := Except.ok "Eicar-Signature",
    yaraResult := Except.ok [],
    fileBytes := none,
    renameResult := Except.error "permission denied" }

/-- A file whose virus scan produced the fallback verdict. -/
def envUnknownThreat : Env :=
  { mimeResult := Except.ok "application/octet-stream",
    clamResult := Except.ok "Unknown threat",
    yaraResult := Except.ok [],
    fileBytes := none,
    renameResult := Except.ok () }

/-- C1: the risk score of every ScanResult produced by processFile is
the clamav_infected weight (once, when the recorded verdict is
non-empty) plus the yara_match weight times the match count (uncapped)
plus the high_entropy weight (once, when the entropy exceeds 6.5),
starting from 0; no mime_mismatch term contributes. -/
theorem score_formula (path : String) (config : ScoringConfig) (env : Env) (qdir : String) :
    ((processFile path config env qdir).1).score
      = (if ((processFile path config env qdir).1).clamAVResult ≠ "" then
            config.weights.clamav_infected else 0)
        + config.weights.yara_match * (((processFile path config env qdir).1).yaraMatches.length : Int)
        + (if ((processFile path config env qdir).1).entropyVal > 6.5 then
            config.weights.high_entropy else 0) := by
  cases hm : env.mimeResult with
  | error e =>
    rw [processFile_err path config env qdir e hm]
    dsimp only
    norm_num
  | ok mt =>
    obtain ⟨hs, hc, hy, he, _, _⟩ := processFile_ok_fields path config env qdir mt hm
    rw [hs, hc, hy, he]
    unfold recordedScore
    exact computeScore_yara_merge config.weights (clamRecorded env.clamResult)
      (yaraRecorded env.yaraResult) (entropyRecorded env.fileBytes)

/-- C2: for thresholds `a ≤ m ≤ q`, the decision processFile assigns is
quarantine when the score is at least `q`, else manual_review when the
score is at least `m`, else auto_approve; exactly one of the three
labels is assigned. -/
theorem decision_policy (path : String) (config : ScoringConfig) (env : Env)
    (qdir mt : String) (hm : env.mimeResult = Except.ok mt)
    (h1 : config.thresholds.auto_approve ≤ config.thresholds.manual_review)
    (h2 : config.thresholds.manual_review ≤ config.thresholds.quarantine) :
    ((processFile path config env qdir).1.score ≥ config.thresholds.quarantine →
        (processFile path config env qdir).1.decision = "quarantine") ∧
    (config.thresholds.manual_review ≤ (processFile path config env qdir).1.score →
        (processFile path config env qdir).1.score < config.thresholds.quarantine →
        (processFile path config env qdir).1.decision = "manual_review") ∧
    ((processFile path config env qdir).1.score < config.thresholds.manual_review →
        (processFile path config env qdir).1.decision = "auto_approve") ∧
    ((processFile path config env qdir).1.decision = "quarantine" ∨
     (processFile path config env qdir).1.decision = "manual_review" ∨
     (processFile path config env qdir).1.decision = "auto_approve") := by
  rw [processFile_ok path config env qdir mt hm, scanStages_eq]
  split_ifs with hq hman
  · dsimp only
    exact ⟨fun _ => rfl, fun _ hlt => absurd hq (by omega), fun hlt => absurd hq (by omega),
      Or.inl rfl⟩
  · dsimp only
    exact ⟨fun h => absurd h hq, fun _ _ => rfl, fun hlt => absurd hman (by omega),
      Or.inr (Or.inl rfl)⟩
  · dsimp only
    exact ⟨fun h => absurd h hq, fun hge _ => absurd hge (by omega), fun _ => rfl,
      Or.inr (Or.inr rfl)⟩

/-- Witness for C2 at a concrete clean file under the default
configuration: score 0 is below the manual_review threshold, so the
decision is auto_approve. -/
theorem decision_policy_witness :
    (processFile "clean.txt" cfgDefaults envClean "quarantine").1.decision = "auto_approve" := by
  have hscore : (processFile "clean.txt" cfgDefaults envClean "quarantine").1.score = 0 := by
    have h := (processFile_ok_fields "clean.txt" cfgDefaults envClean "quarantine"
      "text/plain" rfl).1
    rw [h]
    unfold recordedScore computeScore clamRecorded yaraRecorded entropyRecorded
      envClean cfgDefaults
    rw [if_neg (by decide : ¬ ("" : String) ≠ "")]
    rw [if_neg (by decide : ¬ 0 < ([] : List String).length)]
    rw [if_neg (by norm_num : ¬ (0 : ℝ) > 6.5)]
    norm_num
  exact (decision_policy "clean.txt" cfgDefaults envClean "quarantine" "text/plain" rfl
    (by decide) (by decide)).2.2.1 (by rw [hscore]; decide)

/-- C4 (amended): a MIME classification failure aborts the rest of that
file's pipeline — processFile records the error and returns at once with
the zero-valued result, so no virus scan, pattern match, entropy,
scoring, decision or relocation outcome is recorded. -/
theorem mime_failure_aborts (path : String) (config : ScoringConfig) (env : Env)
    (qdir e : String) (hm : env.mimeResult = Except.error e) :
    processFile path config env qdir
      = ({ path := path, mimeType := "", clamAVResult := "", yaraMatches := [],
           entropyVal := 0, score := 0, decision := "",
           error := some ("MIME detection failed: " ++ e) }, none) :=
  processFile_err path config env qdir e hm

/-- Witness for C4's amended statement at a concrete input. -/
theorem mime_failure_aborts_witness :
    processFile "sample.bin" cfgDefaults envMimeFail "quarantine"
      = ({ path := "sample.bin", mimeType := "", clamAVResult := "", yaraMatches := [],
           entropyVal := 0, score := 0, decision := "",
           error := some ("MIME detection failed: " ++ "invalid argument") }, none) :=
  mime_failure_aborts "sample.bin" cfgDefaults envMimeFail "quarantine" "invalid argument" rfl

/-- Counterexample for C4 as stated: on a MIME failure the remaining
stages do not execute — despite an available infected verdict and a
pattern match, the result carries no verdict, a zero score and none of
the three decision labels. -/
theorem mime_failure_counterexample :
    envMimeFail.clamResult = Except.ok "Eicar-Signature" ∧
    (processFile "sample.bin" cfgDefaults envMimeFail "quarantine").1.decision ≠ "auto_approve" ∧
    (processFile "sample.bin" cfgDefaults envMimeFail "quarantine").1.decision ≠ "manual_review" ∧
    (processFile "sample.bin" cfgDefaults envMimeFail "quarantine").1.decision ≠ "quarantine" ∧
    (processFile "sample.bin" cfgDefaults envMimeFail "quarantine").1.clamAVResult = "" ∧
    (processFile "sample.bin" cfgDefaults envMimeFail "quarantine").1.score = 0 := by
  have h := processFile_err "sample.bin" cfgDefaults envMimeFail "quarantine" "invalid argument" rfl
  rw [h]
  exact ⟨rfl, by decide, by decide, by decide, rfl, rfl⟩

/-- C7 (amended): a virus-scan failure is non-fatal — the verdict
recorded on the ScanResult is the empty string (the same value as a
clean verdict; the error is only logged), the remaining stages still run
and assign one of the three decisions, the verdict contributes zero to
the score, and no error is recorded unless the quarantine move fails. -/
theorem clam_failure_zero_signal (path : String) (config : ScoringConfig) (env : Env)
    (qdir mt e : String) (hm : env.mimeResult = Except.ok mt)
    (hc : env.clamResult = Except.error e) :
    (processFile path config env qdir).1.clamAVResult = "" ∧
    (processFile path config env qdir).1.score
      = config.weights.yara_match * (((processFile path config env qdir).1).yaraMatches.length : Int)
        + (if ((processFile path config env qdir).1).entropyVal > 6.5 then
            config.weights.high_entropy else 0) ∧
    ((processFile path config env qdir).1.decision = "quarantine" ∨
     (processFile path config env qdir).1.decision = "manual_review" ∨
     (processFile path config env qdir).1.decision = "auto_approve") ∧
    (env.renameResult = Except.ok () → (processFile path config env qdir).1.error = none) := by
  have hrec : clamRecorded env.clamResult = "" := by
    rw [hc]
    rfl
  obtain ⟨hs, hcf, hy, he, _, _⟩ := processFile_ok_fields path config env qdir mt hm
  refine ⟨by rw [hcf, hrec], ?_, processFile_ok_decision_cases path config env qdir mt hm,
    fun hre => processFile_ok_error_none path config env qdir mt hm hre⟩
  rw [hs, hy, he]
  unfold recordedScore
  rw [computeScore_yara_merge, hrec]
  simp

/-- Witness for C7's amended statement at a concrete input. -/
theorem clam_failure_zero_signal_witness :
    (processFile "sample.bin" cfgDefaults envClamFail "quarantine").1.clamAVResult = "" ∧
    ((processFile "sample.bin" cfgDefaults envClamFail "quarantine").1.decision = "quarantine" ∨
     (processFile "sample.bin" cfgDefaults envClamFail "quarantine").1.decision = "manual_review" ∨
     (processFile "sample.bin" cfgDefaults envClamFail "quarantine").1.decision = "auto_approve") :=
  ⟨(clam_failure_zero_signal "sample.bin" cfgDefaults envClamFail "quarantine"
      "application/octet-stream" "failed to connect to ClamAV: connection refused" rfl rfl).1,
   (clam_failure_zero_signal "sample.bin" cfgDefaults envClamFail "quarantine"
      "application/octet-stream" "failed to connect to ClamAV: connection refused" rfl rfl).2.2.1⟩

/-- Counterexample for C7 as stated: on a virus-scan connection failure
the verdict recorded on the ScanResult is the empty string, not the
distinct value "unavailable". -/
theorem clam_unavailable_counterexample :
    envClamFail.clamResult
        = Except.error "failed to connect to ClamAV: connection refused" ∧
    (processFile "sample.bin" cfgDefaults envClamFail "quarantine").1.clamAVResult = "" ∧
    (processFile "sample.bin" cfgDefaults envClamFail "quarantine").1.clamAVResult
        ≠ "unavailable" := by
  have h := (clam_failure_zero_signal "sample.bin" cfgDefaults envClamFail "quarantine"
      "application/octet-stream" "failed to connect to ClamAV: connection refused" rfl rfl).1
  exact ⟨rfl, h, by rw [h]; decide⟩

/-- C9: processFile attempts a relocation exactly when the decision is
quarantine — to the quarantine directory under the same base filename —
and a failed move is recorded as the result's error while processing
still completes; on the other decisions no move is attempted and no
error is recorded. -/
theorem quarantine_routing (path : String) (config : ScoringConfig) (env : Env)
    (qdir mt : String) (hm : env.mimeResult = Except.ok mt) :
    ((processFile path config env qdir).1.decision = "quarantine" ↔
        (processFile path config env qdir).2 = some (qdir ++ "/" ++ baseName path)) ∧
    ((processFile path config env qdir).1.decision ≠ "quarantine" →
        (processFile path config env qdir).2 = none) ∧
    (∀ e, env.renameResult = Except.error e →
        (processFile path config env qdir).1.decision = "quarantine" →
        (processFile path config env qdir).1.error
          = some ("failed to quarantine: " ++ e)) ∧
    (env.renameResult = Except.ok () →
        (processFile path config env qdir).1.decision = "quarantine" →
        (processFile path config env qdir).1.error = none) ∧
    ((processFile path config env qdir).1.decision ≠ "quarantine" →
        (processFile path config env qdir).1.error = none) := by
  rw [processFile_ok path config env qdir mt hm, scanStages_eq]
  split_ifs with hq hman
  · dsimp only
    refine ⟨⟨fun _ => rfl, fun _ => rfl⟩, fun hne => absurd rfl hne, ?_, ?_,
      fun hne => absurd rfl hne⟩
    · intro e hre _
      rw [hre]
    · intro hre _
      rw [hre]
  · dsimp only
    exact ⟨⟨fun h => absurd h (by decide), fun h => nomatch h⟩,
      fun _ => rfl, fun e _ h => absurd h (by decide), fun _ h => absurd h (by decide),
      fun _ => rfl⟩
  · dsimp only
    exact ⟨⟨fun h => absurd h (by decide), fun h => nomatch h⟩,
      fun _ => rfl, fun e _ h => absurd h (by decide), fun _ h => absurd h (by decide),
      fun _ => rfl⟩

/-- Witness for C9 at a concrete input: an infected file is routed to
the quarantine directory under its base filename, and the failing move
is recorded as the result's error. -/
theorem quarantine_routing_witness :
    (processFile "virus.bin" cfgDefaults envRenameFail "quarantine").1.error
      = some ("failed to quarantine: " ++ "permission denied") ∧
    (processFile "virus.bin" cfgDefaults envRenameFail "quarantine").2
      = some ("quarantine" ++ "/" ++ baseName "virus.bin") := by
  have hscore : recordedScore cfgDefaults envRenameFail = 200 := by
    unfold recordedScore computeScore clamRecorded yaraRecorded entropyRecorded
      envRenameFail cfgDefaults
    rw [if_pos (by decide : ¬ ("Eicar-Signature" : String) = "")]
    rw [if_neg (by decide : ¬ 0 < ([] : List String).length)]
    rw [if_neg (by norm_num : ¬ (0 : ℝ) > 6.5)]
    norm_num
  have hd : (processFile "virus.bin" cfgDefaults envRenameFail "quarantine").1.decision
      = "quarantine" := by
    rw [processFile_ok_decision_eq "virus.bin" cfgDefaults envRenameFail "quarantine"
      "application/octet-stream" rfl, hscore]
    norm_num
    decide
  exact ⟨(quarantine_routing "virus.bin" cfgDefaults envRenameFail "quarantine"
      "application/octet-stream" rfl).2.2.1 "permission denied" rfl hd,
    ((quarantine_routing "virus.bin" cfgDefaults envRenameFail "quarantine"
      "application/octet-stream" rfl).1).mp hd⟩

/-- Witness for C3: a path dropped on a full queue in the first tick is
marked seen and contributes no enqueue event, and a seen path is never
enqueued over a later run. -/
theorem watcher_dedup_once_witness :
    ("a" ∈ (watcherTick [] [] [("b", true), ("a", false), ("a", true)]).1 ∧
      List.count "a" (watcherTick [] [] [("b", true), ("a", false), ("a", true)]).2
        = List.count "a" ([] : List String)) ∧
    List.count "a" (watcherRun ["a"] [] [[("a", true)], [("a", true)]]).2
      = List.count "a" ([] : List String) ∧
    List.count "a" (watcherRun [] [] [[("a", true)], [("a", true)]]).2 ≤ 1 := by
  refine ⟨?_, ?_, ?_⟩
  · exact watcher_dedup_once.2.2 [] [] [("b", true)] [("a", true)] "a" (by simp) (by simp)
  · exact watcher_dedup_once.2.1 ["a"] [] [[("a", true)], [("a", true)]] "a" (by simp)
  · exact watcher_dedup_once.1 [[("a", true)], [("a", true)]] "a"

/-- C6 (amended): on a trimmed response that does not contain
`UNKNOWN COMMAND` (such responses are intercepted first and yield an
error), the verdict is: on suffix `FOUND` with at least two
whitespace-delimited fields, the fields strictly between the first and
the last joined by single spaces, with no error; on suffix `OK` (and not
`FOUND`), the empty verdict with no error; otherwise an
unexpected-response error. -/
theorem clam_response_parsing (resp : String)
    (hnc : containsSub ("UNKNOWN COMMAND".data) (trimChars resp.data) = false) :
    (endsWithChars (trimChars resp.data) ("FOUND".data) = true →
        2 ≤ (words (trimChars resp.data)).length →
        parseClamResponse resp
          = Except.ok (String.mk (List.intercalate [' ']
              (((words (trimChars resp.data)).drop 1).dropLast)))) ∧
    (endsWithChars (trimChars resp.data) ("FOUND".data) = false →
        endsWithChars (trimChars resp.data) ("OK".data) = true →
        parseClamResponse resp = Except.ok "") ∧
    (endsWithChars (trimChars resp.data) ("FOUND".data) = false →
        endsWithChars (trimChars resp.data) ("OK".data) = false →
        parseClamResponse resp
          = Except.error ("unexpected response: " ++ String.mk (trimChars resp.data))) := by
  refine ⟨?_, ?_, ?_⟩
  · intro hf hlen
    unfold parseClamResponse
    simp only [hnc, Bool.false_eq_true, if_false, hf, if_true, if_pos hlen]
  · intro hf hok
    unfold parseClamResponse
    simp only [hnc, Bool.false_eq_true, if_false, hf, hok, if_true]
  · intro hf hok
    unfold parseClamResponse
    simp only [hnc, Bool.false_eq_true, if_false, hf, hok]

/-- Witness for C6's amended statement: the documented EICAR response
parses to the EICAR verdict, and an `OK` response to the clean one. -/
theorem clam_response_parsing_witness :
    parseClamResponse "stream: EICAR-Test-Signature FOUND"
        = Except.ok "EICAR-Test-Signature" ∧
    parseClamResponse "stream: OK" = Except.ok "" := by
  constructor
  · have h := (clam_response_parsing "stream: EICAR-Test-Signature FOUND" (by decide)).1
      (by decide) (by decide)
    rw [h]
    rfl
  · exact (clam_response_parsing "stream: OK" (by decide)).2.1 (by decide) (by decide)

/-- Counterexample for C6 as stated: the trimmed response
"UNKNOWN COMMAND FOUND" ends with FOUND, yet scanClamAV returns an error
rather than the no-error verdict joined from the middle fields, because
the UNKNOWN COMMAND check is applied first. -/
theorem clam_response_found_counterexample :
    endsWithChars (trimChars "UNKNOWN COMMAND FOUND".data) ("FOUND".data) = true ∧
    parseClamResponse "UNKNOWN COMMAND FOUND"
      = Except.error "INSTREAM not supported and SCAN requires file access from container (mount directories or use local ClamAV)" ∧
    Except.ok "COMMAND" ≠ parseClamResponse "UNKNOWN COMMAND FOUND" := by
  refine ⟨by decide, rfl, ?_⟩
  intro h
  rw [show parseClamResponse "UNKNOWN COMMAND FOUND"
      = Except.error "INSTREAM not supported and SCAN requires file access from container (mount directories or use local ClamAV)" from rfl] at h
  exact Except.noConfusion h

/-- C10: a trimmed response that ends with FOUND but has fewer than two
whitespace-delimited fields yields the verdict "Unknown threat" with no
error, a non-empty value, so processFile adds the clamav_infected weight
to the score of a file that received it. -/
theorem found_without_label (resp : String)
    (hf : endsWithChars (trimChars resp.data) ("FOUND".data) = true)
    (hlen : (words (trimChars resp.data)).length < 2) :
    parseClamResponse resp = Except.ok "Unknown threat" ∧
    ("Unknown threat" : String) ≠ "" ∧
    (∀ (path : String) (config : ScoringConfig) (env : Env) (qdir mt : String),
        env.mimeResult = Except.ok mt →
        env.clamResult = Except.ok "Unknown threat" →
        (processFile path config env qdir).1.score
          = config.weights.clamav_infected
            + config.weights.yara_match
                * (((processFile path config env qdir).1).yaraMatches.length : Int)
            + (if ((processFile path config env qdir).1).entropyVal > 6.5 then
                config.weights.high_entropy else 0)) := by
  have hnc := not_containsSub_of_words_lt _ hlen
  refine ⟨?_, by decide, ?_⟩
  · unfold parseClamResponse
    simp only [hnc, Bool.false_eq_true, if_false, hf, if_true]
    rw [if_neg (by omega : ¬ 2 ≤ (words (trimChars resp.data)).length)]
  · intro path config env qdir mt hm hc
    obtain ⟨hs, hcf, hy, he, _, _⟩ := processFile_ok_fields path config env qdir mt hm
    rw [hs, hy, he]
    unfold recordedScore
    rw [computeScore_yara_merge]
    have hrec : clamRecorded env.clamResult = "Unknown threat" := by
      rw [hc]
      rfl
    rw [hrec, if_pos (by decide : ("Unknown threat" : String) ≠ "")]

/-- Witness for C10: the bare response line "FOUND" yields the verdict
"Unknown threat", and a file carrying that verdict is scored with the
clamav_infected weight under the default configuration. -/
theorem found_without_label_witness :
    parseClamResponse "FOUND" = Except.ok "Unknown threat" ∧
    (processFile "sample.bin" cfgDefaults envUnknownThreat "quarantine").1.score
      = cfgDefaults.weights.clamav_infected
        + cfgDefaults.weights.yara_match
            * (((processFile "sample.bin" cfgDefaults envUnknownThreat "quarantine").1).yaraMatches.length : Int)
        + (if ((processFile "sample.bin" cfgDefaults envUnknownThreat "quarantine").1).entropyVal > 6.5 then
            cfgDefaults.weights.high_entropy else 0) := by
  have h := found_without_label "FOUND" (by decide) (by decide)
  exact ⟨h.1, h.2.2 "sample.bin" cfgDefaults envUnknownThreat "quarantine"
    "application/octet-stream" rfl rfl⟩

/-! ## Lemmas about the entropy function -/

lemma sum_count_univ (b : List (Fin 256)) : ∑ i : Fin 256, b.count i = b.length := by
  induction b with
  | nil => simp
  | cons a t ih =>
    have hind : ∑ i : Fin 256, (if (a == i) = true then 1 else 0) = 1 := by
      simp [beq_iff_eq]
    simp only [List.count_cons, List.length_cons, Finset.sum_add_distrib, hind, ih]

lemma sum_count_filter (b : List (Fin 256)) :
    ∑ i ∈ Finset.univ.filter (fun i : Fin 256 => b.count i ≠ 0), b.count i = b.length := by
  rw [Finset.sum_filter_ne_zero, sum_count_univ]

lemma entropy_nil : entropy [] = 0 := by
  simp [entropy]

lemma entropy_replicate (n : Nat) (v : Fin 256) (hn : n ≠ 0) :
    entropy (List.replicate n v) = 0 := by
  unfold entropy
  rw [if_neg (by simp [hn])]
  have hfil : Finset.univ.filter (fun i : Fin 256 => (List.replicate n v).count i ≠ 0)
      = {v} := by
    ext i
    simp only [Finset.mem_filter, Finset.mem_univ, true_and, Finset.mem_singleton,
      List.count_replicate]
    constructor
    · intro h
      by_contra hne
      apply h
      rw [if_neg (by simp [Ne.symm hne])]
    · intro h
      subst h
      simp [hn]
  rw [hfil, Finset.sum_singleton, List.count_replicate, if_pos (by simp), List.length_replicate]
  have hcast : ((n : ℝ)) ≠ 0 := Nat.cast_ne_zero.mpr hn
  rw [div_self hcast, Real.logb_one]
  simp

lemma entropy_uniform (b : List (Fin 256)) (k : Nat) (hk : k ≠ 0)
    (hcount : ∀ i, b.count i = k) : entropy b = 8 := by
  have hlen : b.length = 256 * k := by
    have h1 := sum_count_univ b
    rw [Finset.sum_congr rfl (fun i _ => hcount i), Finset.sum_const, Finset.card_univ,
      Fintype.card_fin, smul_eq_mul] at h1
    omega
  have hlen0 : b.length ≠ 0 := by omega
  have hfil : Finset.univ.filter (fun i : Fin 256 => b.count i ≠ 0) = Finset.univ := by
    ext i
    simp [hcount i, hk]
  have hp : ∀ i : Fin 256, ((b.count i : ℝ) / (b.length : ℝ)) = 1 / 256 := by
    intro i
    rw [hcount i, hlen]
    have hkr : (k : ℝ) ≠ 0 := Nat.cast_ne_zero.mpr hk
    push_cast
    field_simp
    ring
  have hlogb : Real.logb 2 ((1 : ℝ) / 256) = -8 := by
    rw [one_div, Real.logb_inv]
    rw [show (256 : ℝ) = 2 ^ (8 : ℕ) by norm_num, Real.logb_pow,
      Real.logb_self_eq_one (by norm_num)]
    norm_num
  unfold entropy
  rw [if_neg hlen0, hfil]
  rw [Finset.sum_congr rfl (fun i _ => by rw [hp i, hlogb])]
  rw [Finset.sum_const, Finset.card_univ, Fintype.card_fin, nsmul_eq_mul]
  norm_num

lemma entropy_nonneg (b : List (Fin 256)) : 0 ≤ entropy b := by
  unfold entropy
  split
  · exact le_refl 0
  · rename_i hlen
    rw [neg_nonneg]
    apply Finset.sum_nonpos
    intro i hi
    have hl0 : (0 : ℝ) < (b.length : ℝ) := by
      have : 0 < b.length := Nat.pos_of_ne_zero hlen
      exact_mod_cast this
    have hp0 : (0 : ℝ) ≤ (b.count i : ℝ) / (b.length : ℝ) := by positivity
    have hp1 : (b.count i : ℝ) / (b.length : ℝ) ≤ 1 := by
      rw [div_le_one hl0]
      exact_mod_cast List.count_le_length i b
    have hlog : Real.logb 2 ((b.count i : ℝ) / (b.length : ℝ)) ≤ 0 := by
      rw [← Real.log_div_log]
      exact div_nonpos_of_nonpos_of_nonneg (Real.log_nonpos hp0 hp1)
        (le_of_lt (Real.log_pos (by norm_num)))
    exact mul_nonpos_iff.mpr (Or.inl ⟨hp0, hlog⟩)

lemma entropy_le_eight (b : List (Fin 256)) : entropy b ≤ 8 := by
  unfold entropy
  split
  · norm_num
  rename_i hlen
  have hl0 : (0 : ℝ) < (b.length : ℝ) := by
    have : 0 < b.length := Nat.pos_of_ne_zero hlen
    exact_mod_cast this
  set s := Finset.univ.filter (fun i : Fin 256 => b.count i ≠ 0) with hs
  set p : Fin 256 → ℝ := fun i => (b.count i : ℝ) / (b.length : ℝ) with hpdef
  have hp_pos : ∀ i ∈ s, 0 < p i := by
    intro i hi
    have hc : b.count i ≠ 0 := (Finset.mem_filter.mp hi).2
    have : (0 : ℝ) < (b.count i : ℝ) := by exact_mod_cast Nat.pos_of_ne_zero hc
    exact div_pos this hl0
  have hp_nonneg : ∀ i ∈ s, 0 ≤ p i := fun i hi => le_of_lt (hp_pos i hi)
  have hsum1 : ∑ i ∈ s, p i = 1 := by
    have h1 : ∑ i ∈ s, p i = (∑ i ∈ s, (b.count i : ℝ)) / (b.length : ℝ) := by
      rw [Finset.sum_div]
    rw [h1, ← Nat.cast_sum, sum_count_filter, div_self (ne_of_gt hl0)]
  have hmem : ∀ i ∈ s, (p i)⁻¹ ∈ Set.Ioi (0 : ℝ) := by
    intro i hi
    exact Set.mem_Ioi.mpr (inv_pos.mpr (hp_pos i hi))
  have hj := (strictConcaveOn_log_Ioi.concaveOn).le_map_sum hp_nonneg hsum1 hmem
  have hrhs : ∑ i ∈ s, p i • (p i)⁻¹ = (s.card : ℝ) := by
    rw [Finset.sum_congr rfl (fun i hi => by
      rw [smul_eq_mul, mul_inv_cancel₀ (ne_of_gt (hp_pos i hi))])]
    rw [Finset.sum_const, nsmul_eq_mul, mul_one]
  rw [hrhs] at hj
  have hcard_pos : 0 < s.card := by
    rcases b with _ | ⟨a, t⟩
    · simp at hlen
    · apply Finset.card_pos.mpr
      refine ⟨a, ?_⟩
      rw [hs]
      simp only [Finset.mem_filter, Finset.mem_univ, true_and]
      have : 0 < (a :: t).count a := List.count_pos_iff.mpr (List.mem_cons_self a t)
      omega
  have hcard256 : (s.card : ℝ) ≤ 256 := by
    have h1 : s.card ≤ Fintype.card (Fin 256) := Finset.card_le_univ s
    rw [Fintype.card_fin] at h1
    exact_mod_cast h1
  have hlog_le : Real.log (s.card : ℝ) ≤ Real.log 256 := by
    rw [Real.log_le_log_iff (by exact_mod_cast hcard_pos) (by norm_num)]
    exact hcard256
  have hlog2 : (0 : ℝ) < Real.log 2 := Real.log_pos (by norm_num)
  have hE : - ∑ i ∈ s, p i * Real.logb 2 (p i)
      = (∑ i ∈ s, p i • Real.log ((p i)⁻¹)) / Real.log 2 := by
    rw [Finset.sum_div, ← Finset.sum_neg_distrib]
    apply Finset.sum_congr rfl
    intro i hi
    rw [smul_eq_mul, Real.log_inv, ← Real.log_div_log]
    ring
  rw [hE]
  calc (∑ i ∈ s, p i • Real.log ((p i)⁻¹)) / Real.log 2
      ≤ Real.log (s.card : ℝ) / Real.log 2 := by
        exact (div_le_div_iff_of_pos_right hlog2).mpr hj
    _ ≤ Real.log 256 / Real.log 2 := (div_le_div_iff_of_pos_right hlog2).mpr hlog_le
    _ = 8 := by
        rw [show (256 : ℝ) = 2 ^ (8 : ℕ) by norm_num, Real.log_pow, mul_div_assoc,
          div_self (ne_of_gt hlog2), mul_one]
        norm_num

/-- C8: the entropy function returns exactly 0 on the empty sample and
on any non-empty sample of one repeated byte value, exactly 8 on any
sample uniform over all 256 byte values, and always a value in the
interval [0, 8]. -/
theorem entropy_spec :
    entropy [] = 0 ∧
    (∀ (n : Nat) (v : Fin 256), n ≠ 0 → entropy (List.replicate n v) = 0) ∧
    (∀ (b : List (Fin 256)) (k : Nat), k ≠ 0 → (∀ i, b.count i = k) → entropy b = 8) ∧
    (∀ b : List (Fin 256), 0 ≤ entropy b ∧ entropy b ≤ 8) :=
  ⟨entropy_nil, fun n v hn => entropy_replicate n v hn,
   fun b k hk hc => entropy_uniform b k hk hc,
   fun b => ⟨entropy_nonneg b, entropy_le_eight b⟩⟩

/-- Witness for C8: a concrete constant sample has entropy 0 and the
concrete sample listing each byte value once has entropy 8. -/
theorem entropy_spec_witness :
    entropy (List.replicate 3 (7 : Fin 256)) = 0 ∧ entropy (List.finRange 256) = 8 :=
  ⟨entropy_spec.2.1 3 7 (by decide),
   entropy_spec.2.2.1 (List.finRange 256) 1 (by decide)
     (fun i => List.count_eq_one_of_mem (List.nodup_finRange 256) (List.mem_finRange i))⟩

end BackupLens
